import Mathlib

/-!
Shallow embedding of the "Organizador de Rotina Inteligente" repository
(client-side card organizer: js/storage.js, js/state.js, js/navigation.js,
js/utils.js) and proofs about the claims of its specification.

Modelling conventions, used consistently below:
* A JS string field that may be `undefined` or a non-string is modelled as
  the empty string `""` whenever the source only tests it for truthiness,
  equality with concrete strings, or membership in an enum list
  (`"" `and `undefined` are observationally equivalent there).
* `createdAt`/`updatedAt` are integers, `0` modelling "missing" (the source
  only uses `card.createdAt || 0` and `!card.createdAt`, which identify the
  two).
* `order` is `Option Int`: the source distinguishes `undefined` from `0`
  via `a.order !== undefined`.
* `Array.prototype.sort(cmp)` (stable since ES2019) is modelled by the
  stable insertion sort `jsSort le` with `le a b ↔ cmp a b ≤ 0`; a `NaN`
  comparator result behaves like `0` (keep relative order), which is how
  the engines treat it.
* `Date.now()` and the random `generateId()` are passed in as parameters.
-/

namespace Organizador

/-! JS string primitives -/

/-- The Latin-1 fragment of `String.prototype.toLowerCase`: ASCII `A`-`Z`
and the accented Latin-1 uppercase letters `À`-`Ö`, `Ø`-`Þ` map to their
lowercase forms (code point + 32); everything else is unchanged. -/
def jsLowerChar (c : Char) : Char :=
  if ('A' ≤ c ∧ c ≤ 'Z') ∨ ('À' ≤ c ∧ c ≤ 'Ö') ∨ ('Ø' ≤ c ∧ c ≤ 'Þ') then
    Char.ofNat (c.toNat + 32)
  else c

/-- Model of `String.prototype.toLowerCase` on the Latin-1 fragment. -/
def jsLower (s : String) : String :=
  String.mk (s.data.map jsLowerChar)

/-- Whitespace as `String.prototype.trim` sees it (the ASCII fragment). -/
def isJsSpace (c : Char) : Bool :=
  c = ' ' ∨ c = '\t' ∨ c = '\n' ∨ c = '\r'

/-- Model of `String.prototype.trim`: drop leading and trailing
whitespace. -/
def jsTrim (s : String) : String :=
  String.mk (((s.data.dropWhile isJsSpace).reverse.dropWhile
    isJsSpace).reverse)

/-- Substring test on character lists, `needle = []` matching everything,
like `String.prototype.includes`. -/
def containsL : List Char → List Char → Bool
  | hay, needle =>
    if needle.isPrefixOf hay then true
    else
      match hay with
      | [] => false
      | _ :: t => containsL t needle

/-- Model of `String.prototype.includes`. -/
def jsIncludes (hay needle : String) : Bool :=
  containsL hay.data needle.data

/-! Data model (storage.js `Card` typedef) -/

/-- A stored card record.  String fields default to `""` (= missing),
timestamps to `0` (= missing), `order` to `none` (= `undefined`). -/
structure Card where
  id : String := ""
  title : String := ""
  date : String := ""
  category : String := ""
  status : String := ""
  priority : String := ""
  link : String := ""
  tab : String := ""
  createdAt : Int := 0
  updatedAt : Int := 0
  order : Option Int := none
  deriving DecidableEq, Repr

/-- One entry of the persisted JSON array: either a JS object (a record)
or a non-object value (`null`, number, string, ...), which the source
filters out via `card && typeof card === 'object'`. -/
inductive Item where
  | nonObject : Item
  | obj : Card → Item
  deriving DecidableEq, Repr

/-- The serialized blob stored under the single storage key:
missing (`getItem` returned `null`), unparseable (JSON.parse throws),
parsed but not an array, or a parsed array of items. -/
inductive Blob where
  | missing : Blob
  | corrupt : Blob
  | notArray : Blob
  | array : List Item → Blob
  deriving DecidableEq, Repr

/-- Enum lists from utils.js (`getAvailableCategories().map(c => c.value)` etc.). -/
def validCategories : List String :=
  ["trabalho", "pessoal", "saude", "financeiro", "casa", "outro"]

def validStatusValues : List String :=
  ["pendente", "concluido", "vencido"]

def validPriorities : List String :=
  ["baixa", "media", "alta"]

def validTabs : List String :=
  ["rotina", "economia", "lembretes", "links"]

/-! Stable sort (model of `Array.prototype.sort`) -/

section StableSort

variable {α : Type} (le : α → α → Bool)

/-- Insert `x` (which originates earlier in the array than every element of
the already-sorted tail) before the first element `y` with `le x y`;
this realises a stable sort for the comparator `cmp` with
`le a b ↔ cmp a b ≤ 0`. -/
def insertS (x : α) : List α → List α
  | [] => [x]
  | y :: ys => if le x y then x :: y :: ys else y :: insertS x ys

/-- Stable sort by the boolean relation `le`. -/
def jsSort : List α → List α
  | [] => []
  | x :: xs => insertS le x (jsSort xs)

theorem insertS_perm (x : α) (l : List α) :
    List.Perm (insertS le x l) (x :: l) := by
  induction l with
  | nil => simp [insertS]
  | cons y ys ih =>
      by_cases h : le x y = true
      · simp [insertS, h]
      · have heq : insertS le x (y :: ys) = y :: insertS le x ys := by
          simp [insertS, h]
        rw [heq]
        exact (ih.cons y).trans (List.Perm.swap x y ys)

theorem jsSort_perm (l : List α) : List.Perm (jsSort le l) l := by
  induction l with
  | nil => simp [jsSort]
  | cons x xs ih =>
      exact (insertS_perm le x (jsSort le xs)).trans (ih.cons x)

theorem mem_insertS {x y : α} {l : List α} (h : y ∈ insertS le x l) :
    y = x ∨ y ∈ l := by
  have := (insertS_perm le x l).mem_iff.mp h
  simpa using this

theorem mem_jsSort {x : α} {l : List α} (h : x ∈ jsSort le l) : x ∈ l :=
  (jsSort_perm le l).mem_iff.mp h

theorem insertS_sorted {x : α} {l : List α}
    (total : ∀ a b, a ∈ x :: l → b ∈ x :: l → le a b = true ∨ le b a = true)
    (trans : ∀ a b c, a ∈ x :: l → b ∈ x :: l → c ∈ x :: l →
      le a b = true → le b c = true → le a c = true)
    (hs : l.Pairwise (fun a b => le a b = true)) :
    (insertS le x l).Pairwise (fun a b => le a b = true) := by
  induction l with
  | nil => simp [insertS]
  | cons y ys ih =>
      rcases List.pairwise_cons.mp hs with ⟨hy, hys⟩
      by_cases h : le x y = true
      · have heq : insertS le x (y :: ys) = x :: y :: ys := by
          simp [insertS, h]
        rw [heq]
        refine List.pairwise_cons.mpr ⟨?_, hs⟩
        intro b hb
        rcases List.mem_cons.mp hb with rfl | hb
        · exact h
        · exact trans x y b (by simp) (by simp) (by simp [hb]) h (hy b hb)
      · have heq : insertS le x (y :: ys) = y :: insertS le x ys := by
          simp [insertS, h]
        rw [heq]
        have hsub : ∀ a, a ∈ x :: ys → a ∈ x :: y :: ys := by
          intro a ha
          rcases List.mem_cons.mp ha with rfl | ha
          · exact List.mem_cons_self _ _
          · exact List.mem_cons_of_mem _ (List.mem_cons_of_mem _ ha)
        refine List.pairwise_cons.mpr ⟨?_, ?_⟩
        · intro b hb
          rcases mem_insertS le hb with hbx | hb
          · rw [hbx]
            rcases total x y (by simp) (by simp) with h' | h'
            · exact absurd h' h
            · exact h'
          · exact hy b hb
        · exact ih
            (fun a b ha hb => total a b (hsub a ha) (hsub b hb))
            (fun a b c ha hb hc =>
              trans a b c (hsub a ha) (hsub b hb) (hsub c hc))
            hys

theorem jsSort_sorted {l : List α}
    (total : ∀ a b, a ∈ l → b ∈ l → le a b = true ∨ le b a = true)
    (trans : ∀ a b c, a ∈ l → b ∈ l → c ∈ l →
      le a b = true → le b c = true → le a c = true) :
    (jsSort le l).Pairwise (fun a b => le a b = true) := by
  induction l with
  | nil => simp [jsSort]
  | cons x xs ih =>
      have hmem : ∀ a, a ∈ x :: jsSort le xs → a ∈ x :: xs := by
        intro a ha
        rcases List.mem_cons.mp ha with rfl | ha
        · exact List.mem_cons_self _ _
        · exact List.mem_cons_of_mem _ (mem_jsSort le ha)
      have hsub : ∀ a, a ∈ xs → a ∈ x :: xs := fun a ha =>
        List.mem_cons_of_mem _ ha
      exact insertS_sorted le
        (fun a b ha hb => total a b (hmem a ha) (hmem b hb))
        (fun a b c ha hb hc => trans a b c (hmem a ha) (hmem b hb) (hmem c hc))
        (ih (fun a b ha hb => total a b (hsub a ha) (hsub b hb))
            (fun a b c ha hb hc =>
              trans a b c (hsub a ha) (hsub b hb) (hsub c hc)))

end StableSort

/-! storage.js : getAllCards -/

/-- The comparator of `getAllCards`:
`(a, b) => a.order !== undefined && b.order !== undefined ?
a.order - b.order : (b.createdAt || 0) - (a.createdAt || 0)`,
rendered as `cmp a b ≤ 0`. -/
def cardLe (a b : Card) : Bool :=
  match a.order, b.order with
  | some x, some y => decide (x ≤ y)
  | _, _ => decide (b.createdAt ≤ a.createdAt)

/-- The validity filter of `getAllCards`: object, non-empty string id and
title (`card && typeof card === 'object' && card.id && ... && card.title && ...`). -/
def validFilter (items : List Item) : List Card :=
  items.filterMap fun it =>
    match it with
    | Item.nonObject => none
    | Item.obj c => if c.id ≠ "" ∧ c.title ≠ "" then some c else none

/-- storage.js `getAllCards`: missing / unparseable / non-array blobs give
the empty collection, otherwise filter out malformed records and sort. -/
def getAllCards : Blob → List Card
  | Blob.missing => []
  | Blob.corrupt => []
  | Blob.notArray => []
  | Blob.array items => jsSort cardLe (validFilter items)

/-! storage.js : saveCard -/

/-- The `cardData` argument of `saveCard` (a JS object built by the form
handler); a missing/absent field is modelled as `""`, matching the
source's truthiness tests and `cardData.date || ''` / `cardData.link || ''`. -/
structure CardInput where
  title : String := ""
  date : String := ""
  category : String := ""
  status : String := ""
  priority : String := ""
  link : String := ""
  tab : String := ""
  deriving DecidableEq, Repr

/-- storage.js `saveCard`.  `newId` stands for `generateId()` (random) and
`now` for `Date.now()`.  Returns the created card (or `none` on the
empty-title throw, which the catch turns into `null`) and the new blob. -/
def saveCard (blob : Blob) (input : CardInput) (newId : String) (now : Int) :
    Option Card × Blob :=
  if jsTrim input.title = "" then (none, blob)
  else
    let category :=
      if input.category ≠ "" ∧ input.category ∉ validCategories then "outro"
      else input.category
    let status :=
      if input.status = "" ∨ input.status ∉ validStatusValues then "pendente"
      else input.status
    let priority :=
      if input.priority = "" ∨ input.priority ∉ validPriorities then "media"
      else input.priority
    let tab :=
      if input.tab = "" ∨ input.tab ∉ validTabs then "rotina"
      else input.tab
    let cards := getAllCards blob
    let newCard : Card :=
      { id := newId, title := jsTrim input.title, date := input.date,
        category := category, status := status, priority := priority,
        link := input.link, tab := tab, createdAt := now, updatedAt := now,
        order := some (cards.length : Int) }
    (some newCard, Blob.array ((cards ++ [newCard]).map Item.obj))

/-! storage.js : updateCard -/

/-- The `updates` argument of `updateCard`.  A field is `some v` when
present on the JS object (so it is spread into the card even when falsy)
and `none` when absent.  `id` and `createdAt` are not modelled because the
source destructures them away, and no caller passes other fields. -/
structure CardUpdate where
  title : Option String := none
  date : Option String := none
  category : Option String := none
  status : Option String := none
  priority : Option String := none
  link : Option String := none
  tab : Option String := none
  deriving DecidableEq, Repr

/-- The merge step of `updateCard` on the found card: spread the
(enum-coerced) present update fields over the stored card — `id` and
`createdAt` were destructured away — refresh `updatedAt`, and trim the
title when it is non-blank (`if (updatedCard.title &&
updatedCard.title.trim() !== '')`). -/
def applyUpdates (updates : CardUpdate) (now : Int) (old : Card) : Card :=
  let merged : Card :=
    { old with
      title := updates.title.getD old.title
      date := updates.date.getD old.date
      category :=
        (updates.category.map fun v =>
          if v ≠ "" ∧ v ∉ validCategories then "outro" else v).getD
          old.category
      status :=
        (updates.status.map fun v =>
          if v ≠ "" ∧ v ∉ validStatusValues then "pendente" else v).getD
          old.status
      priority :=
        (updates.priority.map fun v =>
          if v ≠ "" ∧ v ∉ validPriorities then "media" else v).getD
          old.priority
      link := updates.link.getD old.link
      tab :=
        (updates.tab.map fun v =>
          if v ≠ "" ∧ v ∉ validTabs then "rotina" else v).getD old.tab
      updatedAt := now }
  if merged.title ≠ "" ∧ jsTrim merged.title ≠ "" then
    { merged with title := jsTrim merged.title }
  else merged

/-- Replace the first card whose id is `cardId` by its `upd`-image,
returning the new card and the updated list — the
`findIndex` / `cards[cardIndex] = updatedCard` sequence of the source. -/
def updateInList (cardId : String) (upd : Card → Card) :
    List Card → Option (Card × List Card)
  | [] => none
  | c :: cs =>
      if c.id = cardId then
        let c' := upd c
        some (c', c' :: cs)
      else
        match updateInList cardId upd cs with
        | none => none
        | some (r, cs') => some (r, c :: cs')

/-- storage.js `updateCard`: null on invalid/missing id, otherwise merge
the (enum-coerced) updates over the stored card, refresh `updatedAt`, trim
a non-blank title, and persist at the same position. -/
def updateCard (blob : Blob) (cardId : String) (updates : CardUpdate)
    (now : Int) : Option Card × Blob :=
  if cardId = "" then (none, blob)
  else
    match updateInList cardId (applyUpdates updates now) (getAllCards blob) with
    | none => (none, blob)
    | some (c, cards') => (some c, Blob.array (cards'.map Item.obj))

/-! storage.js : deleteCard -/

/-- The recompaction loop `filteredCards.forEach((card, index) =>
card.order = index)`, with `i` the index of the first element. -/
def compactOrders : List Card → Nat → List Card
  | [], _ => []
  | c :: cs, i => { c with order := some (i : Int) } :: compactOrders cs (i + 1)

/-- storage.js `deleteCard`: false when the id is blank or not stored;
otherwise drop every record with that id, recompact `order` and persist. -/
def deleteCard (blob : Blob) (cardId : String) : Bool × Blob :=
  if cardId = "" then (false, blob)
  else
    let cards := getAllCards blob
    let filtered := cards.filter (fun c => c.id != cardId)
    if filtered.length = cards.length then (false, blob)
    else (true, Blob.array ((compactOrders filtered 0).map Item.obj))

/-! storage.js : reorderCards -/

/-- Index of the last occurrence of `j` in `ids`, starting the count at
`k`: the `cardIds.forEach((cardId, index) => ...)` loop overwrites
`card.order` at every occurrence, so the last occurrence wins. -/
def lastIdxAux : List String → String → Nat → Option Nat
  | [], _, _ => none
  | i :: rest, j, k =>
      match lastIdxAux rest j (k + 1) with
      | some m => some m
      | none => if i = j then some k else none

def lastIdx (ids : List String) (j : String) : Option Nat :=
  lastIdxAux ids j 0

/-- The first loop of storage.js `reorderCards`: the `Map` built with
`cards.map(card => [card.id, card])` keeps, for each id, the **last** card
of the array, and the loop mutates that card (and only it): it receives
`order` = last index of its id in `cardIds` and a fresh `updatedAt`. -/
def reorderAssign (ids : List String) (now : Int) : List Card → List Card
  | [] => []
  | c :: rest =>
      (if rest.all (fun d => d.id != c.id) then
        match lastIdx ids c.id with
        | some k => { c with order := some (k : Int), updatedAt := now }
        | none => c
      else c) :: reorderAssign ids now rest

/-- The second loop of storage.js `reorderCards`:
`if (!cardIds.includes(card.id)) card.order = cards.length + card.order`
(`n` = the collection's length; an `undefined` order stays undefined,
standing in for the `NaN` the source would produce). -/
def reorderPush (ids : List String) (n : Nat) (cs : List Card) : List Card :=
  cs.map fun c =>
    if ids.contains c.id then c
    else { c with order := c.order.map (fun o => (n : Int) + o) }

/-- The comparator of `reorderCards`'s final sort: `(a, b) => a.order -
b.order`, rendered as `cmp a b ≤ 0`; a missing order gives `NaN`, which
the sort treats as `0` (keep relative order). -/
def reorderLe (a b : Card) : Bool :=
  match a.order, b.order with
  | some x, some y => decide (x ≤ y)
  | _, _ => true

/-- storage.js `reorderCards` (the Storage-layer reorder): assign new
orders, push unlisted cards by the collection length, sort and persist.
Always returns true (the catch only fires on storage exceptions). -/
def reorderCardsStorage (blob : Blob) (ids : List String) (now : Int) :
    Bool × Blob :=
  let cards := getAllCards blob
  let assigned := reorderAssign ids now cards
  let pushed := reorderPush ids cards.length assigned
  (true, Blob.array ((jsSort reorderLe pushed).map Item.obj))

/-! storage.js : export / import -/

/-- The object serialized by `exportCards` (the JSON string layer is a
bijection on this data and is not modelled). -/
structure ExportData where
  version : String
  exportedAt : String
  count : Nat
  cards : List Card
  deriving DecidableEq, Repr

def exportCards (blob : Blob) (exportedAt : String) : ExportData :=
  { version := "1.0", exportedAt := exportedAt,
    count := (getAllCards blob).length, cards := getAllCards blob }

/-- The result object of `importCards`; `error` is `""` on success. -/
structure ImportResult where
  success : Bool
  imported : Nat
  skipped : Nat
  total : Nat
  deriving DecidableEq, Repr

/-- One iteration of the `importData.cards.forEach` loop of `importCards`:
skip records without id/title and records whose id is already stored,
otherwise default the timestamps and append with the next order. -/
def importStep (existing : List Card) (now : Int) :
    List Card × Nat → Card → List Card × Nat
  | (imported, skipped), card =>
    if card.id = "" ∨ card.title = "" then (imported, skipped + 1)
    else if existing.any (fun e => e.id == card.id) then (imported, skipped + 1)
    else
      let c := { card with
        createdAt := if card.createdAt = 0 then now else card.createdAt,
        updatedAt := if card.updatedAt = 0 then now else card.updatedAt,
        order := some ((existing.length + imported.length : Nat) : Int) }
      (imported ++ [c], skipped)

/-- storage.js `importCards` on an already-parsed `{..., cards}` payload
(the invalid-JSON catch branch is outside this model, and array entries
are card objects as produced by `exportCards`). -/
def importCards (blob : Blob) (importedCards : List Card) (now : Int) :
    ImportResult × Blob :=
  let existing := getAllCards blob
  let res := importedCards.foldl (importStep existing now) ([], 0)
  let allCards := existing ++ res.1
  ({ success := true, imported := res.1.length, skipped := res.2,
     total := allCards.length },
   Blob.array (allCards.map Item.obj))

/-! state.js : application state -/

/-- The per-modal visibility flags; `searchModal` only exists in the
state.js variant and stays `false` in the navigation.js variant. -/
structure ModalFlags where
  cardModal : Bool := false
  linkModal : Bool := false
  deleteModal : Bool := false
  searchModal : Bool := false
  deriving DecidableEq, Repr

/-- The in-memory `AppState`.  The cached `stats` snapshot and the
`isLoading` flag are omitted: no modelled operation's claim mentions them
(`updateCards` recomputes stats from storage as a side channel). -/
structure AppState where
  cards : List Card := []
  activeTab : String := "rotina"
  selectedCardId : Option String := none
  modals : ModalFlags := {}
  isSearchVisible : Bool := false
  searchQuery : String := ""
  deriving DecidableEq, Repr

/-- state.js (`src/unnamed/part_000`) `setActiveTab`: invalid tab → warn
and return; same tab → no `updateState` call; otherwise set the tab and
clear the selection.  Modals and search are untouched. -/
def setActiveTabState (s : AppState) (tabName : String) : AppState :=
  if tabName ∉ validTabs then s
  else if s.activeTab ≠ tabName then
    { s with activeTab := tabName, selectedCardId := none }
  else s

/-- navigation.js state-variant `setActiveTab`: as above but additionally
hides the search and clears the query.  Modals are untouched. -/
def setActiveTabNav (s : AppState) (tabName : String) : AppState :=
  if tabName ∉ validTabs then s
  else if s.activeTab ≠ tabName then
    { s with activeTab := tabName, selectedCardId := none,
             isSearchVisible := false, searchQuery := "" }
  else s

/-- navigation.js `getCardsForActiveTab`:
`state.cards.filter(card => card.tab === state.activeTab)`. -/
def getCardsForActiveTab (s : AppState) : List Card :=
  s.cards.filter (fun c => c.tab == s.activeTab)

/-- Model of `filterCardsBySearch` (same matching logic in both variants):
lowercase and trim the query; an empty result means the unfiltered
active-tab view; otherwise keep active-tab cards whose lowercased title,
or lowercased non-empty category, includes the normalized query. -/
def filterCardsBySearch (s : AppState) (query : String) : List Card :=
  let normalizedQuery := jsTrim (jsLower query)
  if normalizedQuery = "" then getCardsForActiveTab s
  else
    s.cards.filter fun c =>
      if c.tab ≠ s.activeTab then false
      else if jsIncludes (jsLower c.title) normalizedQuery then true
      else if c.category ≠ "" ∧ jsIncludes (jsLower c.category) normalizedQuery
        then true
      else false

/-- utils.js `normalizeString` on the Latin-1 fragment: lowercase, strip
the combining marks produced by NFD (i.e. fold the accented letters to
their base letter), trim. -/
def stripDiacritic (c : Char) : Char :=
  if 'à' ≤ c ∧ c ≤ 'å' then 'a'
  else if c = 'ç' then 'c'
  else if 'è' ≤ c ∧ c ≤ 'ë' then 'e'
  else if 'ì' ≤ c ∧ c ≤ 'ï' then 'i'
  else if c = 'ñ' then 'n'
  else if 'ò' ≤ c ∧ c ≤ 'ö' then 'o'
  else if 'ù' ≤ c ∧ c ≤ 'ü' then 'u'
  else if c = 'ý' ∨ c = 'ÿ' then 'y'
  else c

def normalizeString (s : String) : String :=
  jsTrim (String.mk ((jsLower s).data.map stripDiacritic))

/-- The search the spec describes (modelled from the spec's words, for
comparison with `filterCardsBySearch`): diacritic- and case-insensitive
matching of title/category via `normalizeString`, scoped to the active
tab. -/
def specSearch (s : AppState) (query : String) : List Card :=
  if jsTrim query = "" then getCardsForActiveTab s
  else
    s.cards.filter fun c =>
      c.tab == s.activeTab &&
      (jsIncludes (normalizeString c.title) (normalizeString query) ||
       jsIncludes (normalizeString c.category) (normalizeString query))

/-- Lookup as `Map.get` on the map `new Map(cards.map(card => [card.id, card]))`:
the last card with the given id wins. -/
def lastWithId (cards : List Card) (i : String) : Option Card :=
  (cards.filter (fun c => c.id == i)).getLast?

/-- state.js `updateCards` (both variants): replace the card list and
clear the selection (the stats refresh reads storage and is not part of
the modelled state). -/
def updateCardsState (s : AppState) (cards : List Card) : AppState :=
  { s with cards := cards, selectedCardId := none }

/-- state.js / navigation.js `reorderCards` (the State-layer reorder):
cards found in the id list, in id-list order, followed by the cards whose
id is not listed, in their current order. -/
def reorderCardsState (s : AppState) (cardIds : List String) : AppState :=
  let ordered := cardIds.filterMap (lastWithId s.cards)
  let rest := s.cards.filter (fun c => !(cardIds.contains c.id))
  updateCardsState s (ordered ++ rest)

/-! A heap model for `getState` (claim C7)

`getState` returns `{ ...state }`, a *shallow* copy: the primitive fields
are copied but `modals` (a nested object) is copied by reference.  To talk
about aliasing we give object identities explicitly: a heap maps addresses
to state records and to modal-flag records; the module-level `state`
variable is the object at `internalRef`. -/

/-- The fields of a state object; `modalsRef` is the address of the
`modals` object it points to. -/
structure StateFields where
  activeTab : String
  selectedCardId : Option String
  modalsRef : Nat
  isSearchVisible : Bool
  searchQuery : String
  deriving DecidableEq, Repr

structure Heap where
  stateAt : Nat → StateFields
  modalsAt : Nat → ModalFlags
  nextAddr : Nat
  internalRef : Nat

/-- Model of `getState()`: allocate a fresh state object whose fields are those of
the internal state — including the same `modalsRef` (shallow copy) — and
return its address. -/
def getStateOp (h : Heap) : Heap × Nat :=
  ({ h with
      stateAt := fun a =>
        if a = h.nextAddr then h.stateAt h.internalRef else h.stateAt a,
      nextAddr := h.nextAddr + 1 },
   h.nextAddr)

/-- A caller mutating a top-level field of the object at `addr`:
`obj.activeTab = v`. -/
def writeActiveTab (h : Heap) (addr : Nat) (v : String) : Heap :=
  { h with stateAt := fun a =>
      if a = addr then { h.stateAt addr with activeTab := v } else h.stateAt a }

/-- Write `obj.selectedCardId = v`. -/
def writeSelectedCard (h : Heap) (addr : Nat) (v : Option String) : Heap :=
  { h with stateAt := fun a =>
      if a = addr then { h.stateAt addr with selectedCardId := v }
      else h.stateAt a }

/-- A caller mutating through the nested object: `obj.modals.cardModal = v`. -/
def writeModalFlag (h : Heap) (addr : Nat) (v : Bool) : Heap :=
  let mref := (h.stateAt addr).modalsRef
  { h with modalsAt := fun a =>
      if a = mref then { h.modalsAt mref with cardModal := v }
      else h.modalsAt a }

/-- The value of the internal state as an observer (a later `getState`
reader) sees it, nested modals object included. -/
structure ObservedState where
  activeTab : String
  selectedCardId : Option String
  modals : ModalFlags
  isSearchVisible : Bool
  searchQuery : String
  deriving DecidableEq, Repr

def observeInternal (h : Heap) : ObservedState :=
  let f := h.stateAt h.internalRef
  { activeTab := f.activeTab, selectedCardId := f.selectedCardId,
    modals := h.modalsAt f.modalsRef, isSearchVisible := f.isSearchVisible,
    searchQuery := f.searchQuery }

/-! Shared lemmas about `getAllCards` -/

/-- The `order` of a card as the comparators read it once it is known to
be present (`getD 0` is only a formal default). -/
def orderD (c : Card) : Int :=
  c.order.getD 0

theorem mem_validFilter {items : List Item} {c : Card} :
    c ∈ validFilter items ↔ Item.obj c ∈ items ∧ c.id ≠ "" ∧ c.title ≠ "" := by
  unfold validFilter
  rw [List.mem_filterMap]
  constructor
  · rintro ⟨it, hit, hf⟩
    cases it with
    | nonObject => simp at hf
    | obj d =>
        have hf' : (if d.id ≠ "" ∧ d.title ≠ "" then some d else none) =
            some c := hf
        by_cases hd : d.id ≠ "" ∧ d.title ≠ ""
        · rw [if_pos hd] at hf'
          obtain rfl : d = c := by simpa using hf'
          exact ⟨hit, hd⟩
        · rw [if_neg hd] at hf'
          simp at hf'
  · rintro ⟨hmem, h1, h2⟩
    refine ⟨Item.obj c, hmem, ?_⟩
    show (if c.id ≠ "" ∧ c.title ≠ "" then some c else none) = some c
    rw [if_pos ⟨h1, h2⟩]

theorem getAllCards_array (items : List Item) :
    getAllCards (Blob.array items) = jsSort cardLe (validFilter items) :=
  rfl

theorem mem_getAllCards {blob : Blob} {c : Card} (h : c ∈ getAllCards blob) :
    c.id ≠ "" ∧ c.title ≠ "" := by
  cases blob with
  | missing => simp [getAllCards] at h
  | corrupt => simp [getAllCards] at h
  | notArray => simp [getAllCards] at h
  | array items =>
      rw [getAllCards_array] at h
      exact (mem_validFilter.mp (mem_jsSort cardLe h)).2

theorem cardLe_total (a b : Card) : cardLe a b = true ∨ cardLe b a = true := by
  unfold cardLe
  rcases ha : a.order with _ | x <;> rcases hb : b.order with _ | y <;>
    simp [le_total]

theorem cardLe_of_some {a b : Card} {x y : Int}
    (ha : a.order = some x) (hb : b.order = some y) :
    cardLe a b = decide (x ≤ y) := by
  unfold cardLe
  rw [ha, hb]

theorem getAllCards_sorted_orderD (blob : Blob)
    (h : ∀ c ∈ getAllCards blob, c.order.isSome) :
    (getAllCards blob).Pairwise (fun a b => orderD a ≤ orderD b) := by
  cases blob with
  | missing => simp [getAllCards]
  | corrupt => simp [getAllCards]
  | notArray => simp [getAllCards]
  | array items =>
      rw [getAllCards_array] at h ⊢
      have hmem : ∀ c ∈ validFilter items, c.order.isSome := by
        intro c hc
        exact h c ((jsSort_perm cardLe (validFilter items)).mem_iff.mpr hc)
      have hsorted : (jsSort cardLe (validFilter items)).Pairwise
          (fun a b => cardLe a b = true) := by
        apply jsSort_sorted
        · intro a b _ _
          exact cardLe_total a b
        · intro a b c ha hb hc hab hbc
          rcases Option.isSome_iff_exists.mp (hmem a ha) with ⟨x, hx⟩
          rcases Option.isSome_iff_exists.mp (hmem b hb) with ⟨y, hy⟩
          rcases Option.isSome_iff_exists.mp (hmem c hc) with ⟨z, hz⟩
          rw [cardLe_of_some hx hy] at hab
          rw [cardLe_of_some hy hz] at hbc
          rw [cardLe_of_some hx hz]
          exact decide_eq_true (le_trans (of_decide_eq_true hab)
            (of_decide_eq_true hbc))
      refine hsorted.imp_of_mem ?_
      intro a b ha hb hab
      rcases Option.isSome_iff_exists.mp (h a ha) with ⟨x, hx⟩
      rcases Option.isSome_iff_exists.mp (h b hb) with ⟨y, hy⟩
      rw [cardLe_of_some hx hy] at hab
      simp [orderD, hx, hy]
      exact of_decide_eq_true hab

theorem getAllCards_sorted_createdAt (blob : Blob)
    (h : ∀ c ∈ getAllCards blob, c.order = none) :
    (getAllCards blob).Pairwise (fun a b => b.createdAt ≤ a.createdAt) := by
  cases blob with
  | missing => simp [getAllCards]
  | corrupt => simp [getAllCards]
  | notArray => simp [getAllCards]
  | array items =>
      rw [getAllCards_array] at h ⊢
      have hmem : ∀ c ∈ validFilter items, c.order = none := by
        intro c hc
        exact h c ((jsSort_perm cardLe (validFilter items)).mem_iff.mpr hc)
      have hsorted : (jsSort cardLe (validFilter items)).Pairwise
          (fun a b => cardLe a b = true) := by
        apply jsSort_sorted
        · intro a b _ _
          exact cardLe_total a b
        · intro a b c ha hb hc hab hbc
          unfold cardLe at hab hbc ⊢
          rw [hmem a ha, hmem b hb] at hab
          rw [hmem b hb, hmem c hc] at hbc
          rw [hmem a ha, hmem c hc]
          exact decide_eq_true (le_trans (of_decide_eq_true hbc)
            (of_decide_eq_true hab))
      refine hsorted.imp_of_mem ?_
      intro a b ha hb hab
      unfold cardLe at hab
      rw [h a ha, h b hb] at hab
      exact of_decide_eq_true hab

/-! Claim C3 -/

/-- C3: `getAllCards` never throws to the caller — a missing, unparseable
or non-array blob yields the empty collection; otherwise the result is the
collection with malformed records (missing id or title, or non-object
entries) filtered out, sorted by `order` ascending when orders are
present, falling back to `createdAt` descending when `order` is absent. -/
theorem c3_getAllCards_robust :
    getAllCards Blob.missing = [] ∧
    getAllCards Blob.corrupt = [] ∧
    getAllCards Blob.notArray = [] ∧
    (∀ items, List.Perm (getAllCards (Blob.array items)) (validFilter items)) ∧
    (∀ items c, c ∈ getAllCards (Blob.array items) ↔
      Item.obj c ∈ items ∧ c.id ≠ "" ∧ c.title ≠ "") ∧
    (∀ blob, (∀ c ∈ getAllCards blob, c.order.isSome) →
      (getAllCards blob).Pairwise (fun a b => orderD a ≤ orderD b)) ∧
    (∀ blob, (∀ c ∈ getAllCards blob, c.order = none) →
      (getAllCards blob).Pairwise (fun a b => b.createdAt ≤ a.createdAt)) := by
  refine ⟨rfl, rfl, rfl, ?_, ?_, ?_, ?_⟩
  · intro items
    exact jsSort_perm cardLe (validFilter items)
  · intro items c
    rw [getAllCards_array,
      (jsSort_perm cardLe (validFilter items)).mem_iff]
    exact mem_validFilter
  · exact getAllCards_sorted_orderD
  · exact getAllCards_sorted_createdAt

/-- A small corrupted collection for the C3 witness: a valid card, a
non-object entry, a record missing its title, and a second valid card
with a smaller order. -/
def c3DemoItems : List Item :=
  [Item.obj { id := "k1", title := "Primeiro", order := some 5 },
   Item.nonObject,
   Item.obj { id := "k2", title := "" },
   Item.obj { id := "k3", title := "Terceiro", order := some 2 }]

theorem c3_getAllCards_witness :
    (∀ c ∈ getAllCards (Blob.array c3DemoItems), c.order.isSome) ∧
    (getAllCards (Blob.array c3DemoItems)).Pairwise
      (fun a b => orderD a ≤ orderD b) ∧
    (getAllCards (Blob.array c3DemoItems)).map Card.id = ["k3", "k1"] :=
  ⟨by decide, c3_getAllCards_robust.2.2.2.2.2.1 (Blob.array c3DemoItems)
    (by decide), by decide⟩

/-! Claim C8 -/

theorem importStep_skips (existing : List Card) (now : Int) :
    ∀ (l : List Card) (imported : List Card) (skipped : Nat),
      (∀ c ∈ l, c.id ≠ "" ∧ c.title ≠ "" ∧
        existing.any (fun e => e.id == c.id) = true) →
      l.foldl (importStep existing now) (imported, skipped) =
        (imported, skipped + l.length) := by
  intro l
  induction l with
  | nil =>
      intro imported skipped _
      simp
  | cons c cs ih =>
      intro imported skipped h
      obtain ⟨h1, h2, h3⟩ := h c (by simp)
      have hstep : importStep existing now (imported, skipped) c =
          (imported, skipped + 1) := by
        simp only [importStep]
        rw [if_neg (by simp [h1, h2]), if_pos h3]
      rw [List.foldl_cons, hstep, ih _ _ (fun d hd => h d (by simp [hd]))]
      simp only [List.length_cons, Prod.mk.injEq, true_and]
      omega

/-- C8: importing an untouched export is a no-op merge — every record of
the export round-trip is skipped (its id is already present), nothing is
imported, and the stored collection is re-persisted as is. -/
theorem c8_import_export_roundtrip (blob : Blob) (exportedAt : String)
    (now : Int) :
    importCards blob (exportCards blob exportedAt).cards now =
      ({ success := true, imported := 0,
         skipped := (getAllCards blob).length,
         total := (getAllCards blob).length },
       Blob.array ((getAllCards blob).map Item.obj)) := by
  have hvalid : ∀ c ∈ getAllCards blob, c.id ≠ "" ∧ c.title ≠ "" ∧
      (getAllCards blob).any (fun e => e.id == c.id) = true := by
    intro c hc
    obtain ⟨h1, h2⟩ := mem_getAllCards hc
    refine ⟨h1, h2, List.any_eq_true.mpr ⟨c, hc, by simp⟩⟩
  have hfold := importStep_skips (getAllCards blob) now (getAllCards blob) [] 0
    hvalid
  simp [importCards, exportCards, hfold]

/-! Claim C2 -/

/-- C2: `saveCard` returns null and leaves the store untouched when the
title is empty after trimming; otherwise it appends exactly one new card
carrying the freshly generated id, `createdAt = updatedAt = now`,
`order` = the collection's current count, with an invalid (non-empty,
out-of-enum) category coerced to `"outro"`, and an invalid or missing
status / priority / tab coerced to `"pendente"` / `"media"` / `"rotina"`. -/
theorem c2_saveCard_create (blob : Blob) (input : CardInput) (newId : String)
    (now : Int) :
    (jsTrim input.title = "" → saveCard blob input newId now = (none, blob)) ∧
    (jsTrim input.title ≠ "" →
      ∃ c, saveCard blob input newId now =
          (some c, Blob.array ((getAllCards blob ++ [c]).map Item.obj)) ∧
        c.id = newId ∧ c.title = jsTrim input.title ∧
        c.createdAt = now ∧ c.updatedAt = now ∧
        c.order = some ((getAllCards blob).length : Int) ∧
        (input.category ≠ "" → input.category ∉ validCategories →
          c.category = "outro") ∧
        (input.status ∉ validStatusValues → c.status = "pendente") ∧
        (input.priority ∉ validPriorities → c.priority = "media") ∧
        (input.tab ∉ validTabs → c.tab = "rotina")) := by
  constructor
  · intro h
    simp [saveCard, h]
  · intro h
    unfold saveCard
    rw [if_neg h]
    refine ⟨_, rfl, rfl, rfl, rfl, rfl, rfl, ?_, ?_, ?_, ?_⟩
    · intro h1 h2
      show (if input.category ≠ "" ∧ input.category ∉ validCategories
        then "outro" else input.category) = "outro"
      rw [if_pos ⟨h1, h2⟩]
    · intro h1
      show (if input.status = "" ∨ input.status ∉ validStatusValues
        then "pendente" else input.status) = "pendente"
      rw [if_pos (Or.inr h1)]
    · intro h1
      show (if input.priority = "" ∨ input.priority ∉ validPriorities
        then "media" else input.priority) = "media"
      rw [if_pos (Or.inr h1)]
    · intro h1
      show (if input.tab = "" ∨ input.tab ∉ validTabs
        then "rotina" else input.tab) = "rotina"
      rw [if_pos (Or.inr h1)]

/-- Inputs exercising every coercion of the C2 witness: an invalid
category, an invalid status, a missing priority, and a valid tab. -/
def c2DemoInput : CardInput :=
  { title := "  Pagar conta  ", category := "xyz", status := "bogus",
    priority := "", tab := "economia" }

theorem c2_saveCard_witness :
    jsTrim c2DemoInput.title ≠ "" ∧
    (∃ c, saveCard Blob.missing c2DemoInput "id1" 42 =
        (some c, Blob.array ((getAllCards Blob.missing ++ [c]).map Item.obj)) ∧
      c.id = "id1" ∧ c.title = jsTrim c2DemoInput.title ∧
      c.createdAt = 42 ∧ c.updatedAt = 42 ∧
      c.order = some ((getAllCards Blob.missing).length : Int) ∧
      (c2DemoInput.category ≠ "" → c2DemoInput.category ∉ validCategories →
        c.category = "outro") ∧
      (c2DemoInput.status ∉ validStatusValues → c.status = "pendente") ∧
      (c2DemoInput.priority ∉ validPriorities → c.priority = "media") ∧
      (c2DemoInput.tab ∉ validTabs → c.tab = "rotina")) :=
  ⟨by decide,
   (c2_saveCard_create Blob.missing c2DemoInput "id1" 42).2 (by decide)⟩

/-! Claim C4 -/

theorem compactOrders_map_order :
    ∀ (l : List Card) (i : Nat),
      (compactOrders l i).map Card.order =
        (List.range l.length).map (fun k => some ((i + k : Nat) : Int)) := by
  intro l
  induction l with
  | nil =>
      intro i
      simp [compactOrders]
  | cons c cs ih =>
      intro i
      simp only [compactOrders, List.map_cons, List.length_cons,
        List.range_succ_eq_map, List.map_map, ih (i + 1)]
      congr 1
      apply List.map_congr_left
      intro k _
      simp only [Function.comp_apply]
      congr 1
      omega

theorem compactOrders_map_order_zero (l : List Card) :
    (compactOrders l 0).map Card.order =
      (List.range l.length).map (fun k : Nat => some (k : Int)) := by
  rw [compactOrders_map_order l 0]
  apply List.map_congr_left
  intro k _
  simp

theorem compactOrders_forget :
    ∀ (l : List Card) (i : Nat),
      (compactOrders l i).map (fun c => { c with order := none }) =
        l.map (fun c => { c with order := none }) := by
  intro l
  induction l with
  | nil =>
      intro i
      simp [compactOrders]
  | cons c cs ih =>
      intro i
      simp [compactOrders, ih (i + 1)]

/-- C4: `deleteCard` returns false (leaving the store untouched) when the
id is not in the collection; on success it removes exactly the records
with that id and persists the remaining records, in their current relative
order and otherwise unchanged, with `order` recompacted to the contiguous
sequence `0..n-1`. -/
theorem c4_deleteCard (blob : Blob) (cardId : String) :
    (cardId ∉ (getAllCards blob).map Card.id →
      deleteCard blob cardId = (false, blob)) ∧
    (cardId ∈ (getAllCards blob).map Card.id →
      deleteCard blob cardId =
        (true, Blob.array ((compactOrders
          ((getAllCards blob).filter (fun c => c.id != cardId)) 0).map
          Item.obj)) ∧
      (compactOrders ((getAllCards blob).filter (fun c => c.id != cardId))
          0).map Card.order =
        (List.range ((getAllCards blob).filter
          (fun c => c.id != cardId)).length).map (fun k : Nat => some (k : Int)) ∧
      (compactOrders ((getAllCards blob).filter (fun c => c.id != cardId))
          0).map (fun c => { c with order := none }) =
        ((getAllCards blob).filter (fun c => c.id != cardId)).map
          (fun c => { c with order := none })) := by
  constructor
  · intro h
    by_cases hid : cardId = ""
    · simp [deleteCard, hid]
    · have hfilter : (getAllCards blob).filter (fun c => c.id != cardId) =
          getAllCards blob := by
        apply List.filter_eq_self.mpr
        intro c hc
        simp only [bne_iff_ne, ne_eq]
        intro heq
        exact h (List.mem_map.mpr ⟨c, hc, heq⟩)
      simp [deleteCard, hid, hfilter]
  · intro h
    rcases List.mem_map.mp h with ⟨c, hc, hcid⟩
    have hid : cardId ≠ "" := by
      intro heq
      exact (mem_getAllCards hc).1 (hcid.trans heq)
    have hlt : ((getAllCards blob).filter
        (fun c => c.id != cardId)).length < (getAllCards blob).length := by
      apply List.length_filter_lt_length_iff_exists.mpr
      exact ⟨c, hc, by simp [hcid]⟩
    refine ⟨?_, ?_, compactOrders_forget _ 0⟩
    · simp only [deleteCard]
      rw [if_neg hid, if_neg (Nat.ne_of_lt hlt)]
    · exact compactOrders_map_order_zero _

/-- A well-formed four-card collection over two tabs (the shape several
witnesses use). -/
def demoCards : List Card :=
  [{ id := "c1", title := "T1", tab := "rotina", order := some 0,
     createdAt := 1 },
   { id := "c2", title := "T2", tab := "rotina", order := some 1,
     createdAt := 2 },
   { id := "c3", title := "T3", tab := "economia", order := some 2,
     createdAt := 3 },
   { id := "c4", title := "T4", tab := "economia", order := some 3,
     createdAt := 4 }]

def demoBlob : Blob :=
  Blob.array (demoCards.map Item.obj)

theorem c4_deleteCard_witness :
    "c2" ∈ (getAllCards demoBlob).map Card.id ∧
    (deleteCard demoBlob "c2" =
        (true, Blob.array ((compactOrders
          ((getAllCards demoBlob).filter (fun c => c.id != "c2")) 0).map
          Item.obj)) ∧
      (compactOrders ((getAllCards demoBlob).filter (fun c => c.id != "c2"))
          0).map Card.order =
        (List.range ((getAllCards demoBlob).filter
          (fun c => c.id != "c2")).length).map (fun k : Nat => some (k : Int)) ∧
      (compactOrders ((getAllCards demoBlob).filter (fun c => c.id != "c2"))
          0).map (fun c => { c with order := none }) =
        ((getAllCards demoBlob).filter (fun c => c.id != "c2")).map
          (fun c => { c with order := none })) ∧
    "zz" ∉ (getAllCards demoBlob).map Card.id ∧
    deleteCard demoBlob "zz" = (false, demoBlob) :=
  ⟨by decide, (c4_deleteCard demoBlob "c2").2 (by decide), by decide,
   (c4_deleteCard demoBlob "zz").1 (by decide)⟩

/-! Claim C10 -/

theorem updateInList_decomp (cardId : String) (upd : Card → Card) :
    ∀ (l : List Card), cardId ∈ l.map Card.id → (l.map Card.id).Nodup →
      ∃ l₁ old l₂, l = l₁ ++ old :: l₂ ∧ old.id = cardId ∧
        updateInList cardId upd l = some (upd old, l₁ ++ upd old :: l₂) ∧
        (∀ d ∈ l₁ ++ l₂, d.id ≠ cardId) := by
  intro l
  induction l with
  | nil =>
      intro h _
      simp at h
  | cons c cs ih =>
      intro hmem hnodup
      by_cases hc : c.id = cardId
      · refine ⟨[], c, cs, by simp, hc, by simp [updateInList, hc], ?_⟩
        intro d hd heq
        have hnotin : c.id ∉ cs.map Card.id :=
          (List.nodup_cons.mp (by simpa using hnodup)).1
        apply hnotin
        rw [hc, ← heq]
        exact List.mem_map.mpr ⟨d, by simpa using hd, rfl⟩
      · have hmem' : cardId ∈ cs.map Card.id := by
          have h := hmem
          simp only [List.map_cons, List.mem_cons] at h
          rcases h with h | h
          · exact absurd h.symm hc
          · exact h
        obtain ⟨l₁, old, l₂, hsplit, hid, hupd, hothers⟩ :=
          ih hmem' (List.nodup_cons.mp (by simpa using hnodup)).2
        refine ⟨c :: l₁, old, l₂, by simp [hsplit], hid, ?_, ?_⟩
        · simp [updateInList, hc, hupd]
        · intro d hd
          simp only [List.cons_append, List.mem_cons] at hd
          rcases hd with rfl | hd'
          · exact hc
          · exact hothers d hd'

theorem applyUpdates_blank_title (now : Int) (old : Card) :
    (applyUpdates { title := some "" } now old).title = "" ∧
    (applyUpdates { title := some "" } now old).id = old.id := by
  unfold applyUpdates
  simp

/-- C10: for a stored card (unique ids), `updateCard` with `{title: ""}`
is accepted — it returns a card with empty title and persists it — after
which the malformed-record filter of `getAllCards` drops it: no card with
that id remains visible. -/
theorem c10_update_blank_title (blob : Blob) (cardId : String) (now : Int)
    (hmem : cardId ∈ (getAllCards blob).map Card.id)
    (hnodup : ((getAllCards blob).map Card.id).Nodup) :
    ∃ c blob', updateCard blob cardId { title := some "" } now =
        (some c, blob') ∧
      c.title = "" ∧ c.id = cardId ∧
      (∃ items, blob' = Blob.array items ∧ Item.obj c ∈ items) ∧
      cardId ∉ (getAllCards blob').map Card.id := by
  have hid : cardId ≠ "" := by
    rcases List.mem_map.mp hmem with ⟨d, hd, hdid⟩
    intro heq
    exact (mem_getAllCards hd).1 (hdid.trans heq)
  obtain ⟨l₁, old, l₂, hsplit, holdid, hupd, hothers⟩ :=
    updateInList_decomp cardId (applyUpdates { title := some "" } now)
      (getAllCards blob) hmem hnodup
  obtain ⟨hctitle, hcid⟩ := applyUpdates_blank_title now old
  refine ⟨applyUpdates { title := some "" } now old,
    Blob.array ((l₁ ++ applyUpdates { title := some "" } now old :: l₂).map
      Item.obj), ?_, hctitle, hcid.trans holdid, ⟨_, rfl, ?_⟩, ?_⟩
  · simp [updateCard, hid, hupd]
  · exact List.mem_map.mpr ⟨_, by simp, rfl⟩
  · intro hin
    rcases List.mem_map.mp hin with ⟨x, hx, hxid⟩
    rw [getAllCards_array] at hx
    have hx' := (jsSort_perm cardLe _).mem_iff.mp hx
    obtain ⟨hobj, _, hxtitle⟩ := mem_validFilter.mp hx'
    rcases List.mem_map.mp hobj with ⟨y, hy, hyx⟩
    have hyx' : y = x := by simpa using hyx
    rw [hyx'] at hy
    rcases List.mem_append.mp hy with hy' | hy'
    · exact hothers x (List.mem_append.mpr (Or.inl hy')) hxid
    · rcases List.mem_cons.mp hy' with rfl | hy''
      · exact hxtitle hctitle
      · exact hothers x (List.mem_append.mpr (Or.inr hy'')) hxid

theorem c10_update_blank_title_witness :
    "c1" ∈ (getAllCards demoBlob).map Card.id ∧
    ((getAllCards demoBlob).map Card.id).Nodup ∧
    (∃ c blob', updateCard demoBlob "c1" { title := some "" } 60 =
        (some c, blob') ∧
      c.title = "" ∧ c.id = "c1" ∧
      (∃ items, blob' = Blob.array items ∧ Item.obj c ∈ items) ∧
      "c1" ∉ (getAllCards blob').map Card.id) :=
  ⟨by decide, by decide,
   c10_update_blank_title demoBlob "c1" 60 (by decide) (by decide)⟩

/-! Claim C6 -/

/-- A state with an open card modal and a selected card, for the C6
counterexample. -/
def c6DemoState : AppState :=
  { cards := [], activeTab := "rotina", selectedCardId := some "x",
    modals := { cardModal := true }, isSearchVisible := false,
    searchQuery := "" }

/-- C6 counterexample: switching to a different valid tab leaves the open
card modal open in both `setActiveTab` variants (the claim says switching
closes any open modal), and switching to the already-active tab leaves the
selection in place (the claim says the selection is always cleared). -/
theorem c6_setActiveTab_counterexample :
    (setActiveTabNav c6DemoState "economia").modals.cardModal = true ∧
    (setActiveTabState c6DemoState "economia").modals.cardModal = true ∧
    (setActiveTabNav c6DemoState "rotina").selectedCardId = some "x" ∧
    (setActiveTabState c6DemoState "rotina").selectedCardId = some "x" := by
  decide

/-- C6 (amended): for a valid target tab different from the current one,
`setActiveTab` sets the tab and clears `selectedCardId` to null — the
modal flags are untouched, not closed — and the navigation.js variant
additionally hides the search and clears the query; for the current tab or
an invalid tab the state is unchanged. -/
theorem c6_setActiveTab (s : AppState) (t : String) :
    (t ∈ validTabs → t ≠ s.activeTab →
      setActiveTabState s t =
        { s with activeTab := t, selectedCardId := none } ∧
      setActiveTabNav s t =
        { s with activeTab := t, selectedCardId := none,
                 isSearchVisible := false, searchQuery := "" }) ∧
    (t ∉ validTabs →
      setActiveTabState s t = s ∧ setActiveTabNav s t = s) ∧
    (t = s.activeTab →
      setActiveTabState s t = s ∧ setActiveTabNav s t = s) := by
  refine ⟨?_, ?_, ?_⟩
  · intro hv hne
    have h1 : ¬ t ∉ validTabs := not_not_intro hv
    have h2 : s.activeTab ≠ t := fun h => hne h.symm
    constructor
    · unfold setActiveTabState
      rw [if_neg h1, if_pos h2]
    · unfold setActiveTabNav
      rw [if_neg h1, if_pos h2]
  · intro hv
    constructor
    · unfold setActiveTabState
      rw [if_pos hv]
    · unfold setActiveTabNav
      rw [if_pos hv]
  · intro heq
    by_cases hv : t ∉ validTabs
    · constructor
      · unfold setActiveTabState
        rw [if_pos hv]
      · unfold setActiveTabNav
        rw [if_pos hv]
    · have h2 : ¬ s.activeTab ≠ t := not_not_intro heq.symm
      constructor
      · unfold setActiveTabState
        rw [if_neg hv, if_neg h2]
      · unfold setActiveTabNav
        rw [if_neg hv, if_neg h2]

theorem c6_setActiveTab_witness :
    "economia" ∈ validTabs ∧ "economia" ≠ c6DemoState.activeTab ∧
    (setActiveTabState c6DemoState "economia" =
      { c6DemoState with activeTab := "economia", selectedCardId := none } ∧
     setActiveTabNav c6DemoState "economia" =
      { c6DemoState with activeTab := "economia", selectedCardId := none,
                         isSearchVisible := false, searchQuery := "" }) :=
  ⟨by decide, by decide,
   (c6_setActiveTab c6DemoState "economia").1 (by decide) (by decide)⟩

/-! Claim C7 -/

/-- A concrete heap for the C7 counterexample: the internal state lives at
address 0, its modals object at address 0, all modals closed. -/
def c7DemoHeap : Heap :=
  { stateAt := fun _ =>
      { activeTab := "rotina", selectedCardId := none, modalsRef := 0,
        isSearchVisible := false, searchQuery := "" },
    modalsAt := fun _ => {},
    nextAddr := 1,
    internalRef := 0 }

/-- C7 counterexample: `getState` copies only the top level, so writing
`copy.modals.cardModal = true` through the returned object changes what a
later reader of the internal state observes — the copy is not defensive
for nested objects. -/
theorem c7_getState_counterexample :
    observeInternal
        (writeModalFlag (getStateOp c7DemoHeap).1 (getStateOp c7DemoHeap).2
          true) ≠
      observeInternal c7DemoHeap ∧
    (observeInternal
        (writeModalFlag (getStateOp c7DemoHeap).1 (getStateOp c7DemoHeap).2
          true)).modals.cardModal = true ∧
    (observeInternal c7DemoHeap).modals.cardModal = false := by
  decide

/-- C7 (amended): `getState` returns a *shallow* defensive copy — writing
a top-level field of the returned object never affects the internal state,
but the nested modals object is shared by reference (so nested writes do,
as the counterexample shows). -/
theorem c7_getState_shallow_copy (h : Heap)
    (hfresh : h.internalRef ≠ h.nextAddr) (v : String) (w : Option String) :
    observeInternal (writeActiveTab (getStateOp h).1 (getStateOp h).2 v) =
      observeInternal h ∧
    observeInternal (writeSelectedCard (getStateOp h).1 (getStateOp h).2 w) =
      observeInternal h ∧
    ((getStateOp h).1.stateAt (getStateOp h).2).modalsRef =
      (h.stateAt h.internalRef).modalsRef := by
  refine ⟨?_, ?_, ?_⟩
  · unfold observeInternal writeActiveTab getStateOp
    simp [hfresh]
  · unfold observeInternal writeSelectedCard getStateOp
    simp [hfresh]
  · unfold getStateOp
    simp

theorem c7_getState_witness :
    c7DemoHeap.internalRef ≠ c7DemoHeap.nextAddr ∧
    (observeInternal
        (writeActiveTab (getStateOp c7DemoHeap).1 (getStateOp c7DemoHeap).2
          "links") =
      observeInternal c7DemoHeap ∧
    observeInternal
        (writeSelectedCard (getStateOp c7DemoHeap).1
          (getStateOp c7DemoHeap).2 (some "z")) =
      observeInternal c7DemoHeap ∧
    ((getStateOp c7DemoHeap).1.stateAt (getStateOp c7DemoHeap).2).modalsRef =
      (c7DemoHeap.stateAt c7DemoHeap.internalRef).modalsRef) :=
  ⟨by decide,
   c7_getState_shallow_copy c7DemoHeap (by decide) "links" (some "z")⟩

/-! Claim C5 -/

theorem char_le_toNat {a b : Char} (h : a ≤ b) : a.toNat ≤ b.toNat := by
  have h1 := Char.le_def.mp h
  have h2 := UInt32.le_def.mp h1
  exact BitVec.le_def.mp h2

theorem toNat_ofNat_valid {n : Nat} (h : n.isValidChar) :
    (Char.ofNat n).toNat = n := by
  unfold Char.ofNat
  rw [dif_pos h]
  unfold Char.ofNatAux
  simp [Char.toNat, UInt32.toNat, BitVec.toNat_ofNatLt]

theorem jsLowerChar_idem (c : Char) :
    jsLowerChar (jsLowerChar c) = jsLowerChar c := by
  by_cases h : ('A' ≤ c ∧ c ≤ 'Z') ∨ ('À' ≤ c ∧ c ≤ 'Ö') ∨ ('Ø' ≤ c ∧ c ≤ 'Þ')
  · have hA : ('A' : Char).toNat = 65 := by decide
    have hZ : ('Z' : Char).toNat = 90 := by decide
    have hAg : ('À' : Char).toNat = 192 := by decide
    have hOg : ('Ö' : Char).toNat = 214 := by decide
    have hOs : ('Ø' : Char).toNat = 216 := by decide
    have hTh : ('Þ' : Char).toNat = 222 := by decide
    have hb : (65 ≤ c.toNat ∧ c.toNat ≤ 90) ∨
        (192 ≤ c.toNat ∧ c.toNat ≤ 214) ∨
        (216 ≤ c.toNat ∧ c.toNat ≤ 222) := by
      rcases h with ⟨h1, h2⟩ | ⟨h1, h2⟩ | ⟨h1, h2⟩
      · exact Or.inl ⟨hA ▸ char_le_toNat h1, hZ ▸ char_le_toNat h2⟩
      · exact Or.inr (Or.inl ⟨hAg ▸ char_le_toNat h1, hOg ▸ char_le_toNat h2⟩)
      · exact Or.inr (Or.inr ⟨hOs ▸ char_le_toNat h1, hTh ▸ char_le_toNat h2⟩)
    have hvalid : (c.toNat + 32).isValidChar := Or.inl (by omega)
    have heq : jsLowerChar c = Char.ofNat (c.toNat + 32) := by
      unfold jsLowerChar
      rw [if_pos h]
    rw [heq]
    have htn : (Char.ofNat (c.toNat + 32)).toNat = c.toNat + 32 :=
      toNat_ofNat_valid hvalid
    unfold jsLowerChar
    rw [if_neg ?_]
    rintro (⟨ha1, ha2⟩ | ⟨ha1, ha2⟩ | ⟨ha1, ha2⟩)
    · have g1 := char_le_toNat ha1
      have g2 := char_le_toNat ha2
      rw [hA, htn] at g1
      rw [hZ, htn] at g2
      omega
    · have g1 := char_le_toNat ha1
      have g2 := char_le_toNat ha2
      rw [hAg, htn] at g1
      rw [hOg, htn] at g2
      omega
    · have g1 := char_le_toNat ha1
      have g2 := char_le_toNat ha2
      rw [hOs, htn] at g1
      rw [hTh, htn] at g2
      omega
  · have heq : jsLowerChar c = c := by
      unfold jsLowerChar
      rw [if_neg h]
    rw [heq, heq]

theorem jsLower_idem (s : String) : jsLower (jsLower s) = jsLower s := by
  unfold jsLower
  congr 1
  simp only [List.map_map]
  apply List.map_congr_left
  intro c _
  exact jsLowerChar_idem c

/-- A card whose title carries a diacritic, and a state holding it on the
active tab, for the C5 counterexample. -/
def c5DemoCard : Card :=
  { id := "s1", title := "Saúde", tab := "rotina" }

def c5DemoState : AppState :=
  { cards := [c5DemoCard], activeTab := "rotina" }

/-- C5 counterexample: the query `"saude"` does not match the active-tab
card titled `"Saúde"` — `filterCardsBySearch` only lowercases and never
strips diacritics — although the diacritic-insensitive matching the claim
describes (via utils.js `normalizeString`, modelled by `specSearch`) does
match it. -/
theorem c5_search_counterexample :
    filterCardsBySearch c5DemoState "saude" = [] ∧
    c5DemoCard ∈ c5DemoState.cards ∧
    c5DemoCard.tab = c5DemoState.activeTab ∧
    jsIncludes (normalizeString c5DemoCard.title) (normalizeString "saude") =
      true ∧
    specSearch c5DemoState "saude" = [c5DemoCard] := by
  decide

/-- C5 (amended): for every state and query, `filterCardsBySearch` returns
the unfiltered active-tab view on an empty/whitespace query, returns only
cards of the active tab taken from the state, is insensitive to the case
of the query, and otherwise keeps exactly the active-tab cards whose
lowercased title — or lowercased non-empty category — includes the
lowercased trimmed query: matching is case-insensitive but
diacritic-sensitive. -/
theorem c5_filterCardsBySearch (s : AppState) (q : String) :
    (jsTrim (jsLower q) = "" →
      filterCardsBySearch s q = getCardsForActiveTab s) ∧
    (∀ c ∈ filterCardsBySearch s q, c ∈ s.cards ∧ c.tab = s.activeTab) ∧
    filterCardsBySearch s q = filterCardsBySearch s (jsLower q) ∧
    (jsTrim (jsLower q) ≠ "" →
      filterCardsBySearch s q = s.cards.filter (fun c =>
        c.tab == s.activeTab &&
        (jsIncludes (jsLower c.title) (jsTrim (jsLower q)) ||
         (c.category != "" &&
          jsIncludes (jsLower c.category) (jsTrim (jsLower q)))))) := by
  have hpred : ∀ nq : String, ∀ c : Card,
      (if c.tab ≠ s.activeTab then false
       else if jsIncludes (jsLower c.title) nq then true
       else if c.category ≠ "" ∧ jsIncludes (jsLower c.category) nq then true
       else false) =
      (c.tab == s.activeTab &&
       (jsIncludes (jsLower c.title) nq ||
        (c.category != "" && jsIncludes (jsLower c.category) nq))) := by
    intro nq c
    by_cases h1 : c.tab = s.activeTab
    · by_cases h2 : jsIncludes (jsLower c.title) nq = true
      · simp [h1, h2]
      · by_cases h3 : c.category = ""
        · simp [h1, h2, h3]
        · by_cases h4 : jsIncludes (jsLower c.category) nq = true
          · simp [h1, h2, h3, h4]
          · simp [h1, h2, h3, h4]
    · simp [h1]
  refine ⟨?_, ?_, ?_, ?_⟩
  · intro h
    unfold filterCardsBySearch
    rw [if_pos h]
  · intro c hc
    by_cases h : jsTrim (jsLower q) = ""
    · unfold filterCardsBySearch at hc
      rw [if_pos h] at hc
      unfold getCardsForActiveTab at hc
      have := List.mem_filter.mp hc
      exact ⟨this.1, by simpa using this.2⟩
    · unfold filterCardsBySearch at hc
      rw [if_neg h] at hc
      have hmem := List.mem_filter.mp hc
      refine ⟨hmem.1, ?_⟩
      have hp := hmem.2
      rw [hpred (jsTrim (jsLower q)) c] at hp
      simp only [Bool.and_eq_true, beq_iff_eq] at hp
      exact hp.1
  · unfold filterCardsBySearch
    rw [jsLower_idem]
  · intro h
    unfold filterCardsBySearch
    rw [if_neg h]
    apply List.filter_congr
    intro c _
    exact hpred (jsTrim (jsLower q)) c

theorem c5_filterCardsBySearch_witness :
    jsTrim (jsLower "  SAÚ ") ≠ "" ∧
    filterCardsBySearch c5DemoState "  SAÚ " =
      c5DemoState.cards.filter (fun c =>
        c.tab == c5DemoState.activeTab &&
        (jsIncludes (jsLower c.title) (jsTrim (jsLower "  SAÚ ")) ||
         (c.category != "" &&
          jsIncludes (jsLower c.category) (jsTrim (jsLower "  SAÚ "))))) ∧
    filterCardsBySearch c5DemoState "  SAÚ " = [c5DemoCard] ∧
    filterCardsBySearch { c5DemoState with activeTab := "economia" }
      "  SAÚ " = [] :=
  ⟨by decide, (c5_filterCardsBySearch c5DemoState "  SAÚ ").2.2.2 (by decide),
   by decide, by decide⟩

/-! Claim C9 -/

theorem filterMap_congr_mem {α β : Type} {f g : α → Option β} :
    ∀ (l : List α), (∀ a ∈ l, f a = g a) → l.filterMap f = l.filterMap g := by
  intro l
  induction l with
  | nil =>
      intro _
      rfl
  | cons a as ih =>
      intro h
      simp only [List.filterMap_cons]
      rw [h a (by simp), ih (fun b hb => h b (by simp [hb]))]

theorem filterMap_update_perm {α β : Type} [DecidableEq α] :
    ∀ (ids : List α) (f g : α → Option β) (j : α) (c : β),
      ids.Nodup → j ∈ ids → (∀ i ∈ ids, i ≠ j → f i = g i) →
      f j = some c → g j = none →
      List.Perm (ids.filterMap f) (c :: ids.filterMap g) := by
  intro ids
  induction ids with
  | nil =>
      intro f g j c _ hj
      simp at hj
  | cons i rest ih =>
      intro f g j c hnodup hj hfg hf hg
      by_cases hij : i = j
      · subst hij
        have hnr : i ∉ rest := (List.nodup_cons.mp hnodup).1
        have hrest_eq : rest.filterMap f = rest.filterMap g :=
          filterMap_congr_mem rest
            (fun b hb => hfg b (by simp [hb]) (fun hbj => hnr (hbj ▸ hb)))
        simp only [List.filterMap_cons, hf, hg, hrest_eq]
        exact List.Perm.refl _
      · have hj' : j ∈ rest := by
          rcases List.mem_cons.mp hj with h | h
          · exact absurd h.symm hij
          · exact h
        have hperm := ih f g j c (List.nodup_cons.mp hnodup).2 hj'
          (fun b hb hbj => hfg b (by simp [hb]) hbj) hf hg
        have hfi : f i = g i := hfg i (by simp) hij
        simp only [List.filterMap_cons, hfi]
        cases hgi : g i with
        | none => exact hperm
        | some d => exact (hperm.cons d).trans (List.Perm.swap c d _)

theorem lastWithId_head {c : Card} {cs : List Card}
    (h : c.id ∉ cs.map Card.id) : lastWithId (c :: cs) c.id = some c := by
  unfold lastWithId
  have hnil : cs.filter (fun x => x.id == c.id) = [] := by
    rw [List.filter_eq_nil_iff]
    intro x hx
    simp only [beq_iff_eq]
    intro heq
    exact h (List.mem_map.mpr ⟨x, hx, heq⟩)
  simp [List.filter_cons, hnil]

theorem lastWithId_tail {c : Card} {cs : List Card} {i : String}
    (h : i ≠ c.id) : lastWithId (c :: cs) i = lastWithId cs i := by
  unfold lastWithId
  have : (c.id == i) = false := by
    simp
    exact fun heq => h heq.symm
  simp [List.filter_cons, this]

theorem lastWithId_none {cs : List Card} {i : String}
    (h : i ∉ cs.map Card.id) : lastWithId cs i = none := by
  unfold lastWithId
  have hnil : cs.filter (fun x => x.id == i) = [] := by
    rw [List.filter_eq_nil_iff]
    intro x hx
    simp only [beq_iff_eq]
    intro heq
    exact h (List.mem_map.mpr ⟨x, hx, heq⟩)
  rw [hnil]
  rfl

theorem reorder_core_perm :
    ∀ (cards : List Card) (ids : List String), ids.Nodup →
      (cards.map Card.id).Nodup →
      List.Perm
        (ids.filterMap (lastWithId cards) ++
          cards.filter (fun c => !(ids.contains c.id)))
        cards := by
  intro cards
  induction cards with
  | nil =>
      intro ids _ _
      have : ∀ i ∈ ids, lastWithId [] i = none := by
        intro i _
        rfl
      rw [List.filterMap_eq_nil_iff.mpr this]
      simp
  | cons c cs ih =>
      intro ids hids hnodup
      have hcnotin : c.id ∉ cs.map Card.id :=
        (List.nodup_cons.mp (by simpa using hnodup)).1
      have hcs : (cs.map Card.id).Nodup :=
        (List.nodup_cons.mp (by simpa using hnodup)).2
      by_cases hc : c.id ∈ ids
      · have hfilter : (c :: cs).filter (fun x => !(ids.contains x.id)) =
            cs.filter (fun x => !(ids.contains x.id)) := by
          simp [List.filter_cons, hc]
        have hupdate := filterMap_update_perm ids (lastWithId (c :: cs))
          (lastWithId cs) c.id c hids hc
          (fun i _ hij => lastWithId_tail hij)
          (lastWithId_head hcnotin) (lastWithId_none hcnotin)
        rw [hfilter]
        have step1 : List.Perm
            (ids.filterMap (lastWithId (c :: cs)) ++
              cs.filter (fun x => !(ids.contains x.id)))
            ((c :: ids.filterMap (lastWithId cs)) ++
              cs.filter (fun x => !(ids.contains x.id))) :=
          hupdate.append_right _
        exact step1.trans ((ih ids hids hcs).cons c)
      · have hfilter : (c :: cs).filter (fun x => !(ids.contains x.id)) =
            c :: cs.filter (fun x => !(ids.contains x.id)) := by
          simp [List.filter_cons, hc]
        have heq : ids.filterMap (lastWithId (c :: cs)) =
            ids.filterMap (lastWithId cs) :=
          filterMap_congr_mem ids
            (fun i hi => lastWithId_tail (fun hic => hc (hic ▸ hi)))
        rw [hfilter, heq]
        exact List.perm_middle.trans ((ih ids hids hcs).cons c)

/-- The single-card state of the C9 counterexample. -/
def c9DemoState : AppState :=
  { cards := [{ id := "a", title := "A", tab := "rotina" }],
    activeTab := "rotina" }

/-- C9 counterexample: a duplicated id in the reorder list duplicates the
card — `State.reorderCards ["a","a"]` on a one-card state yields the card
twice, so the multiset of cards is not preserved. -/
theorem c9_reorder_state_counterexample :
    (reorderCardsState c9DemoState ["a", "a"]).cards =
      [{ id := "a", title := "A", tab := "rotina" },
       { id := "a", title := "A", tab := "rotina" }] ∧
    c9DemoState.cards = [{ id := "a", title := "A", tab := "rotina" }] ∧
    ¬ List.Perm (reorderCardsState c9DemoState ["a", "a"]).cards
        c9DemoState.cards := by
  refine ⟨by decide, by decide, fun h => ?_⟩
  have hlen := h.length_eq
  simp [reorderCardsState, updateCardsState, c9DemoState, lastWithId] at hlen

/-- C9 (amended): provided the id list has no duplicates and the state's
card ids are pairwise distinct, `State.reorderCards` permutes the card
list — no card is lost or duplicated — and changes nothing else besides
clearing the selection. -/
theorem c9_reorderCardsState_perm (s : AppState) (ids : List String)
    (h1 : ids.Nodup) (h2 : (s.cards.map Card.id).Nodup) :
    List.Perm (reorderCardsState s ids).cards s.cards ∧
    (reorderCardsState s ids).activeTab = s.activeTab ∧
    (reorderCardsState s ids).modals = s.modals ∧
    (reorderCardsState s ids).selectedCardId = none := by
  refine ⟨?_, rfl, rfl, rfl⟩
  show List.Perm
    (ids.filterMap (lastWithId s.cards) ++
      s.cards.filter (fun c => !(ids.contains c.id))) s.cards
  exact reorder_core_perm s.cards ids h1 h2

/-- The four-card state of the C9 witness. -/
def c9WitnessState : AppState :=
  { cards := demoCards, activeTab := "rotina" }

theorem c9_reorderCardsState_witness :
    (["c2", "c1"] : List String).Nodup ∧
    (c9WitnessState.cards.map Card.id).Nodup ∧
    (List.Perm (reorderCardsState c9WitnessState ["c2", "c1"]).cards
        c9WitnessState.cards ∧
      (reorderCardsState c9WitnessState ["c2", "c1"]).activeTab =
        c9WitnessState.activeTab ∧
      (reorderCardsState c9WitnessState ["c2", "c1"]).modals =
        c9WitnessState.modals ∧
      (reorderCardsState c9WitnessState ["c2", "c1"]).selectedCardId =
        none) :=
  ⟨by decide, by decide,
   c9_reorderCardsState_perm c9WitnessState ["c2", "c1"] (by decide)
     (by decide)⟩

/-! Claim C1 -/

/-- Index of the first occurrence of `j` in a list of ids (total, `0` past
the end); under `Nodup` it coincides with `lastIdx`. -/
def idxOfStr : List String → String → Nat
  | [], _ => 0
  | i :: rest, j => if i = j then 0 else 1 + idxOfStr rest j

theorem lastIdxAux_of_not_mem :
    ∀ (ids : List String) (j : String) (k : Nat), j ∉ ids →
      lastIdxAux ids j k = none := by
  intro ids
  induction ids with
  | nil =>
      intro j k _
      rfl
  | cons i rest ih =>
      intro j k h
      have h1 : j ∉ rest := fun hr => h (List.mem_cons_of_mem _ hr)
      have h2 : i ≠ j := fun he => h (by simp [he])
      simp only [lastIdxAux, ih j (k + 1) h1]
      rw [if_neg h2]

theorem lastIdxAux_of_mem :
    ∀ (ids : List String) (j : String) (k : Nat), ids.Nodup → j ∈ ids →
      lastIdxAux ids j k = some (k + idxOfStr ids j) := by
  intro ids
  induction ids with
  | nil =>
      intro j k _ h
      simp at h
  | cons i rest ih =>
      intro j k hnodup hj
      by_cases hij : i = j
      · subst hij
        have hnr : i ∉ rest := (List.nodup_cons.mp hnodup).1
        simp only [lastIdxAux, lastIdxAux_of_not_mem rest i (k + 1) hnr]
        simp [idxOfStr]
      · have hj' : j ∈ rest := by
          rcases List.mem_cons.mp hj with h | h
          · exact absurd h.symm hij
          · exact h
        simp only [lastIdxAux,
          ih j (k + 1) (List.nodup_cons.mp hnodup).2 hj']
        simp only [idxOfStr]
        rw [if_neg hij]
        congr 1
        omega

theorem lastIdx_of_mem {ids : List String} {j : String} (h1 : ids.Nodup)
    (h2 : j ∈ ids) : lastIdx ids j = some (idxOfStr ids j) := by
  unfold lastIdx
  rw [lastIdxAux_of_mem ids j 0 h1 h2]
  simp

theorem lastIdx_of_not_mem {ids : List String} {j : String} (h : j ∉ ids) :
    lastIdx ids j = none :=
  lastIdxAux_of_not_mem ids j 0 h

theorem idxOfStr_lt_length :
    ∀ {ids : List String} {j : String}, j ∈ ids →
      idxOfStr ids j < ids.length := by
  intro ids
  induction ids with
  | nil =>
      intro j h
      simp at h
  | cons i rest ih =>
      intro j h
      by_cases hij : i = j
      · simp [idxOfStr, hij]
      · have hj' : j ∈ rest := by
          rcases List.mem_cons.mp h with h' | h'
          · exact absurd h'.symm hij
          · exact h'
        simp only [idxOfStr, List.length_cons]
        rw [if_neg hij]
        have := ih hj'
        omega

theorem idxOfStr_pairwise :
    ∀ {ids : List String}, ids.Nodup →
      ids.Pairwise (fun i j => idxOfStr ids i < idxOfStr ids j) := by
  intro ids
  induction ids with
  | nil =>
      intro _
      simp
  | cons i rest ih =>
      intro hnodup
      obtain ⟨hni, hrest⟩ := List.nodup_cons.mp hnodup
      refine List.pairwise_cons.mpr ⟨?_, ?_⟩
      · intro j hj
        have hij : i ≠ j := fun he => hni (he ▸ hj)
        simp only [idxOfStr]
        simp [hij]
      · refine (ih hrest).imp_of_mem ?_
        intro a b ha hb hab
        have hia : i ≠ a := fun he => hni (he ▸ ha)
        have hib : i ≠ b := fun he => hni (he ▸ hb)
        simp only [idxOfStr]
        rw [if_neg hia, if_neg hib]
        omega

/-- The combined effect of the two loops of `reorderCards` on one card
(valid under `Nodup` hypotheses): a listed card gets `order` = its index
in the id list and a fresh `updatedAt`; an unlisted card gets its order
shifted by the collection length. -/
def reorderFinal (ids : List String) (now : Int) (n : Nat) (c : Card) :
    Card :=
  if ids.contains c.id then
    { c with order := some ((idxOfStr ids c.id : Nat) : Int),
             updatedAt := now }
  else
    { c with order := c.order.map (fun o => (n : Int) + o) }

theorem reorderAssign_eq_map (ids : List String) (now : Int) :
    ∀ (l : List Card), (l.map Card.id).Nodup →
      reorderAssign ids now l = l.map (fun c =>
        match lastIdx ids c.id with
        | some k => { c with order := some (k : Int), updatedAt := now }
        | none => c) := by
  intro l
  induction l with
  | nil =>
      intro _
      rfl
  | cons c cs ih =>
      intro hnodup
      have hcnotin : c.id ∉ cs.map Card.id :=
        (List.nodup_cons.mp (by simpa using hnodup)).1
      have hall : cs.all (fun d => d.id != c.id) = true := by
        rw [List.all_eq_true]
        intro d hd
        simp only [bne_iff_ne, ne_eq]
        intro he
        exact hcnotin (List.mem_map.mpr ⟨d, hd, he⟩)
      simp only [reorderAssign, List.map_cons]
      rw [if_pos hall, ih (List.nodup_cons.mp (by simpa using hnodup)).2]

theorem reorderPush_final (ids : List String) (now : Int) (l : List Card)
    (n : Nat) (hids : ids.Nodup) (hnodup : (l.map Card.id).Nodup) :
    reorderPush ids n (reorderAssign ids now l) =
      l.map (reorderFinal ids now n) := by
  rw [reorderAssign_eq_map ids now l hnodup]
  unfold reorderPush
  rw [List.map_map]
  apply List.map_congr_left
  intro c _
  simp only [Function.comp_apply]
  by_cases hc : c.id ∈ ids
  · rw [lastIdx_of_mem hids hc]
    simp [reorderFinal, hc]
  · rw [lastIdx_of_not_mem hc]
    simp [reorderFinal, hc]

theorem eq_of_perm_of_pairwise_lt {f : Card → Int} :
    ∀ (l₁ l₂ : List Card), List.Perm l₁ l₂ →
      l₁.Pairwise (fun a b => f a < f b) →
      l₂.Pairwise (fun a b => f a < f b) → l₁ = l₂ := by
  intro l₁
  induction l₁ with
  | nil =>
      intro l₂ hp _ _
      exact hp.nil_eq
  | cons a t ih =>
      intro l₂ hp hp1 hp2
      cases l₂ with
      | nil =>
          have := hp.length_eq
          simp at this
      | cons b t₂ =>
          have hab : a = b := by
            by_contra hne
            have ha2 : a ∈ b :: t₂ := hp.mem_iff.mp (by simp)
            have hb1 : b ∈ a :: t := hp.mem_iff.mpr (by simp)
            have ha2' : a ∈ t₂ := by
              rcases List.mem_cons.mp ha2 with h | h
              · exact absurd h hne
              · exact h
            have hb1' : b ∈ t := by
              rcases List.mem_cons.mp hb1 with h | h
              · exact absurd h.symm hne
              · exact h
            have h1 : f a < f b := (List.pairwise_cons.mp hp1).1 b hb1'
            have h2 : f b < f a := (List.pairwise_cons.mp hp2).1 a ha2'
            exact absurd h2 (lt_asymm h1)
          subst hab
          rw [ih t₂ hp.cons_inv (List.pairwise_cons.mp hp1).2
            (List.pairwise_cons.mp hp2).2]

theorem lastWithId_eq_find :
    ∀ {l : List Card}, (l.map Card.id).Nodup →
      ∀ i, lastWithId l i = l.find? (fun c => c.id == i) := by
  intro l
  induction l with
  | nil =>
      intro _ i
      rfl
  | cons c cs ih =>
      intro hnodup i
      have hcnotin : c.id ∉ cs.map Card.id :=
        (List.nodup_cons.mp (by simpa using hnodup)).1
      by_cases hci : c.id = i
      · subst hci
        rw [lastWithId_head hcnotin, List.find?_cons_of_pos _ (by simp)]
      · rw [lastWithId_tail (fun he => hci he.symm),
          List.find?_cons_of_neg _ (by simp [hci]),
          ih (List.nodup_cons.mp (by simpa using hnodup)).2 i]

theorem reorderLe_of_some {a b : Card} {x y : Int}
    (ha : a.order = some x) (hb : b.order = some y) :
    reorderLe a b = decide (x ≤ y) := by
  unfold reorderLe
  rw [ha, hb]

theorem reorderLe_total (a b : Card) :
    reorderLe a b = true ∨ reorderLe b a = true := by
  unfold reorderLe
  rcases ha : a.order with _ | x <;> rcases hb : b.order with _ | y <;>
    simp [le_total]

/-- The collection of the C1 counterexample: ids `a` (order 0) and `b`
(order 1). -/
def c1DemoBlob : Blob :=
  Blob.array [Item.obj { id := "a", title := "A", order := some 0 },
              Item.obj { id := "b", title := "B", order := some 1 }]

/-- An id list containing stale ids (`x1`..`x4` are not stored). -/
def c1DemoIds : List String := ["x1", "x2", "x3", "x4", "a"]

/-- C1 counterexample: with stale ids in the list, an omitted card is NOT
pushed after all listed cards — the listed card `a` receives `order` = 4
(its index in the id list), while the omitted card `b` only receives
`order` = 2 + 1 = 3, so `b` ends up before `a` in the persisted,
re-sorted collection. -/
theorem c1_reorderCards_storage_counterexample :
    "a" ∈ c1DemoIds ∧ "b" ∉ c1DemoIds ∧
    (getAllCards c1DemoBlob).map Card.id = ["a", "b"] ∧
    (getAllCards (reorderCardsStorage c1DemoBlob c1DemoIds 100).2).map
      Card.id = ["b", "a"] := by
  decide

/-- C1 (amended): provided the id list is duplicate-free, every listed id
is stored, and the stored cards have pairwise-distinct ids and
pairwise-distinct, present, non-negative orders, `reorderCards` persists
exactly: the listed cards in id-list order, each with `order` = its index
in the list and a refreshed `updatedAt`, followed by the omitted cards in
their previous relative order, each with its order shifted past the
collection length — re-sorted by the new order, and returns true. -/
theorem c1_reorderCards_storage (blob : Blob) (ids : List String)
    (now : Int) (h1 : ids.Nodup)
    (h2 : ∀ i ∈ ids, i ∈ (getAllCards blob).map Card.id)
    (h3 : ((getAllCards blob).map Card.id).Nodup)
    (h4 : ∀ c ∈ getAllCards blob, c.order.isSome ∧ 0 ≤ orderD c)
    (h5 : ((getAllCards blob).map Card.order).Nodup) :
    reorderCardsStorage blob ids now =
      (true, Blob.array
        ((ids.filterMap (fun i : String =>
            ((getAllCards blob).find? (fun c : Card => c.id == i)).map
              (fun c : Card => { c with
                order := some ((idxOfStr ids i : Nat) : Int),
                updatedAt := now })) ++
          ((getAllCards blob).filter (fun c : Card => !(ids.contains c.id))).map
            (fun c : Card => { c with
              order := c.order.map
                (fun o => ((getAllCards blob).length : Int) + o) })).map
          Item.obj)) := by
  have hpush := reorderPush_final ids now (getAllCards blob)
    (getAllCards blob).length h1 h3
  -- the target: listed cards (in id-list order) then pushed omitted cards
  have hLpair : (ids.filterMap (fun i =>
      ((getAllCards blob).find? (fun c => c.id == i)).map
        (fun c => { c with
          order := some ((idxOfStr ids i : Nat) : Int),
          updatedAt := now }))).Pairwise
      (fun a b => orderD a < orderD b) := by
    apply List.pairwise_filterMap.mpr
    refine (idxOfStr_pairwise h1).imp ?_
    intro i j hij x hx y hy
    cases hfi : (getAllCards blob).find? (fun c => c.id == i) with
    | none =>
        rw [hfi] at hx
        simp at hx
    | some c =>
        rw [hfi] at hx
        cases hfj : (getAllCards blob).find? (fun c => c.id == j) with
        | none =>
            rw [hfj] at hy
            simp at hy
        | some d =>
            rw [hfj] at hy
            have hx' : { c with
                order := some ((idxOfStr ids i : Nat) : Int),
                updatedAt := now } = x := by simpa using hx
            have hy' : { d with
                order := some ((idxOfStr ids j : Nat) : Int),
                updatedAt := now } = y := by simpa using hy
            rw [← hx', ← hy']
            simp only [orderD, Option.getD_some]
            exact_mod_cast hij
  have hsomecs : ∀ c ∈ getAllCards blob, c.order.isSome :=
    fun c hc => (h4 c hc).1
  have pcs : (getAllCards blob).Pairwise
      (fun a b => orderD a < orderD b) := by
    have p1 := getAllCards_sorted_orderD blob hsomecs
    have p2 : (getAllCards blob).Pairwise
        (fun a b => a.order ≠ b.order) := List.pairwise_map.mp h5
    refine (p1.and p2).imp_of_mem ?_
    intro a b ha hb hab
    rcases Option.isSome_iff_exists.mp (h4 a ha).1 with ⟨x, hx⟩
    rcases Option.isSome_iff_exists.mp (h4 b hb).1 with ⟨y, hy⟩
    refine lt_of_le_of_ne hab.1 ?_
    intro he
    apply hab.2
    rw [hx, hy]
    simp only [orderD, hx, hy, Option.getD_some] at he
    rw [he]
  have hOpair : (((getAllCards blob).filter
      (fun c => !(ids.contains c.id))).map
      (fun c => { c with
        order := c.order.map
          (fun o => ((getAllCards blob).length : Int) + o) })).Pairwise
      (fun a b => orderD a < orderD b) := by
    apply List.pairwise_map.mpr
    refine (pcs.filter _).imp_of_mem ?_
    intro a b ha hb hab
    rcases Option.isSome_iff_exists.mp
      (h4 a (List.mem_of_mem_filter ha)).1 with ⟨x, hx⟩
    rcases Option.isSome_iff_exists.mp
      (h4 b (List.mem_of_mem_filter hb)).1 with ⟨y, hy⟩
    simp only [orderD, hx, hy, Option.getD_some] at hab
    simp only [orderD, hx, hy, Option.map_some', Option.getD_some]
    omega
  have hcross : ∀ a ∈ ids.filterMap (fun i =>
      ((getAllCards blob).find? (fun c => c.id == i)).map
        (fun c => { c with
          order := some ((idxOfStr ids i : Nat) : Int),
          updatedAt := now })),
      ∀ b ∈ ((getAllCards blob).filter
        (fun c => !(ids.contains c.id))).map
        (fun c : Card => { c with
          order := c.order.map
            (fun o => ((getAllCards blob).length : Int) + o) }),
      orderD a < orderD b := by
    intro a ha b hb
    rcases List.mem_filterMap.mp ha with ⟨i, hi, hfi⟩
    rcases List.mem_map.mp hb with ⟨c', hc', rfl⟩
    rcases Option.isSome_iff_exists.mp
      (h4 c' (List.mem_of_mem_filter hc')).1 with ⟨k, hk⟩
    have hk0 : (0 : Int) ≤ k := by
      have := (h4 c' (List.mem_of_mem_filter hc')).2
      simpa [orderD, hk] using this
    have hidx := idxOfStr_lt_length hi
    have hlen : ids.length ≤ (getAllCards blob).length := by
      have hsub : ids ⊆ (getAllCards blob).map Card.id := fun x hx => h2 x hx
      have := (List.subperm_of_subset h1 hsub).length_le
      simpa using this
    cases hfind : (getAllCards blob).find? (fun c => c.id == i) with
    | none =>
        rw [hfind] at hfi
        simp at hfi
    | some c =>
        rw [hfind] at hfi
        have ha' : { c with
            order := some ((idxOfStr ids i : Nat) : Int),
            updatedAt := now } = a := by simpa using hfi
        rw [← ha']
        simp only [orderD, hk, Option.map_some', Option.getD_some]
        omega
  have htarget : (ids.filterMap (fun i : String =>
      ((getAllCards blob).find? (fun c : Card => c.id == i)).map
        (fun c : Card => { c with
          order := some ((idxOfStr ids i : Nat) : Int),
          updatedAt := now })) ++
      ((getAllCards blob).filter (fun c : Card => !(ids.contains c.id))).map
        (fun c : Card => { c with
          order := c.order.map
            (fun o => ((getAllCards blob).length : Int) + o) })).Pairwise
      (fun a b => orderD a < orderD b) :=
    List.pairwise_append.mpr ⟨hLpair, hOpair, hcross⟩
  -- the sort output is a permutation of the target
  have hA3 : ((ids.filterMap (lastWithId (getAllCards blob))).map
      (reorderFinal ids now (getAllCards blob).length)) =
      ids.filterMap (fun i =>
        ((getAllCards blob).find? (fun c => c.id == i)).map
          (fun c : Card => { c with
            order := some ((idxOfStr ids i : Nat) : Int),
            updatedAt := now })) := by
    rw [List.map_filterMap]
    apply filterMap_congr_mem
    intro i hi
    rw [lastWithId_eq_find h3]
    cases hfind : (getAllCards blob).find? (fun c => c.id == i) with
    | none => rfl
    | some c =>
        have hcid : c.id = i := by simpa using List.find?_some hfind
        have hcont : ids.contains c.id = true := by
          rw [hcid]
          exact List.elem_eq_true_of_mem hi
        simp only [Option.map_some']
        unfold reorderFinal
        rw [if_pos hcont, hcid]
  have hA4 : (((getAllCards blob).filter
      (fun c => !(ids.contains c.id))).map
      (reorderFinal ids now (getAllCards blob).length)) =
      ((getAllCards blob).filter (fun c => !(ids.contains c.id))).map
        (fun c : Card => { c with
          order := c.order.map
            (fun o => ((getAllCards blob).length : Int) + o) }) := by
    apply List.map_congr_left
    intro c hc
    have hcont : ids.contains c.id = false := by
      have := (List.mem_filter.mp hc).2
      simpa using this
    have hnotin : c.id ∉ ids := by simpa using hcont
    unfold reorderFinal
    rw [if_neg (by simp [hnotin])]
  have hperm2 : List.Perm
      ((ids.filterMap (lastWithId (getAllCards blob)) ++
        (getAllCards blob).filter (fun c => !(ids.contains c.id))).map
        (reorderFinal ids now (getAllCards blob).length))
      ((getAllCards blob).map
        (reorderFinal ids now (getAllCards blob).length)) :=
    (reorder_core_perm (getAllCards blob) ids h1 h3).map _
  rw [List.map_append, hA3, hA4] at hperm2
  have hperm : List.Perm
      (jsSort reorderLe ((getAllCards blob).map
        (reorderFinal ids now (getAllCards blob).length)))
      (ids.filterMap (fun i =>
        ((getAllCards blob).find? (fun c => c.id == i)).map
          (fun c : Card => { c with
            order := some ((idxOfStr ids i : Nat) : Int),
            updatedAt := now })) ++
      ((getAllCards blob).filter (fun c => !(ids.contains c.id))).map
        (fun c : Card => { c with
          order := c.order.map
            (fun o => ((getAllCards blob).length : Int) + o) })) :=
    (jsSort_perm _ _).trans hperm2.symm
  -- the sort output is strictly sorted by order
  have hall : ∀ x ∈ (getAllCards blob).map
      (reorderFinal ids now (getAllCards blob).length),
      ∃ k : Int, x.order = some k := by
    intro x hx
    rcases List.mem_map.mp hx with ⟨c, hc, rfl⟩
    unfold reorderFinal
    by_cases hcont : ids.contains c.id
    · rw [if_pos hcont]
      exact ⟨_, rfl⟩
    · rw [if_neg hcont]
      rcases Option.isSome_iff_exists.mp (h4 c hc).1 with ⟨k, hk⟩
      exact ⟨((getAllCards blob).length : Int) + k, by simp [hk]⟩
  have hsorted : (jsSort reorderLe ((getAllCards blob).map
      (reorderFinal ids now (getAllCards blob).length))).Pairwise
      (fun a b => reorderLe a b = true) := by
    apply jsSort_sorted
    · intro a b _ _
      exact reorderLe_total a b
    · intro a b c ha hb hc hab hbc
      rcases hall a ha with ⟨x, hx⟩
      rcases hall b hb with ⟨y, hy⟩
      rcases hall c hc with ⟨z, hz⟩
      rw [reorderLe_of_some hx hy] at hab
      rw [reorderLe_of_some hy hz] at hbc
      rw [reorderLe_of_some hx hz]
      exact decide_eq_true (le_trans (of_decide_eq_true hab)
        (of_decide_eq_true hbc))
  have hle : (jsSort reorderLe ((getAllCards blob).map
      (reorderFinal ids now (getAllCards blob).length))).Pairwise
      (fun a b => orderD a ≤ orderD b) := by
    refine hsorted.imp_of_mem ?_
    intro a b ha hb hab
    have ha' := mem_jsSort reorderLe ha
    have hb' := mem_jsSort reorderLe hb
    rcases hall a ha' with ⟨x, hx⟩
    rcases hall b hb' with ⟨y, hy⟩
    rw [reorderLe_of_some hx hy] at hab
    simp only [orderD, hx, hy, Option.getD_some]
    exact of_decide_eq_true hab
  have hne_target := htarget.imp
    (fun h => (ne_of_lt h : orderD _ ≠ orderD _))
  have hne_out := (hperm.pairwise_iff
    (fun h => (Ne.symm h : orderD _ ≠ orderD _))).mpr hne_target
  have hstrict : (jsSort reorderLe ((getAllCards blob).map
      (reorderFinal ids now (getAllCards blob).length))).Pairwise
      (fun a b => orderD a < orderD b) :=
    (hle.and hne_out).imp (fun h => lt_of_le_of_ne h.1 h.2)
  have hkey := eq_of_perm_of_pairwise_lt _ _ hperm hstrict htarget
  show (true, Blob.array ((jsSort reorderLe (reorderPush ids
      (getAllCards blob).length
      (reorderAssign ids now (getAllCards blob)))).map Item.obj)) = _
  rw [hpush, hkey]

theorem c1_reorderCards_storage_witness :
    (["c2", "c1"] : List String).Nodup ∧
    (∀ i ∈ (["c2", "c1"] : List String),
      i ∈ (getAllCards demoBlob).map Card.id) ∧
    (∀ c ∈ getAllCards demoBlob, c.order.isSome ∧ 0 ≤ orderD c) ∧
    reorderCardsStorage demoBlob ["c2", "c1"] 50 =
      (true, Blob.array
        (((["c2", "c1"] : List String).filterMap (fun i : String =>
            ((getAllCards demoBlob).find? (fun c : Card => c.id == i)).map
              (fun c : Card => { c with
                order := some ((idxOfStr ["c2", "c1"] i : Nat) : Int),
                updatedAt := 50 })) ++
          ((getAllCards demoBlob).filter (fun c : Card =>
            !((["c2", "c1"] : List String).contains c.id))).map
            (fun c : Card => { c with
              order := c.order.map
                (fun o => ((getAllCards demoBlob).length : Int) + o) })).map
          Item.obj)) ∧
    ((getAllCards (reorderCardsStorage demoBlob ["c2", "c1"] 50).2).filter
      (fun c => c.tab == "rotina")).map Card.id = ["c2", "c1"] ∧
    ((getAllCards (reorderCardsStorage demoBlob ["c2", "c1"] 50).2).filter
      (fun c => c.tab == "economia")).map Card.id = ["c3", "c4"] :=
  ⟨by decide, by decide, by decide,
   c1_reorderCards_storage demoBlob ["c2", "c1"] 50 (by decide) (by decide)
     (by decide) (by decide) (by decide),
   by decide, by decide⟩

end Organizador
